import Mathlib

/-!
Verification of the governance core of the `recipe-generator` AI API:
the response cache (`internal/core/ai/cache/manager.go`), the token-bucket
rate limiter (`internal/api/middleware/rate_limit.go`), the request
deduplication middleware, and the bounded work queue
(`internal/core/ai/queue/manager.go`).

Modelling conventions:
* A Go `map[string]V` is an association list `List (String × V)`; the
  unspecified iteration order of a Go map is the list order.
* `time.Time` instants and `time.Duration` values are `Int` (nanoseconds,
  as in Go's int64-based representation); the rate limiter's `float64`
  second counts are rationals `ℚ`.
* Go `int`/`int64` are `Int`.
* The SHA-256 hex digest is an abstract function `sha : String → String`
  passed as a parameter; where a claim needs it, the fixed output length
  of the hex digest (64 characters) is a hypothesis.
* Fallible Go functions returning `error` become `Except`-valued functions,
  with the distinct error values of the source as constructors.
-/

set_option autoImplicit false

namespace Recipe

/-! ### Association-list maps (Go `map[string]V`) -/

def lookupKey {β : Type} (k : String) : List (String × β) → Option β
  | [] => none
  | p :: rest => if p.1 = k then some p.2 else lookupKey k rest

def insertKey {β : Type} (k : String) (v : β) : List (String × β) → List (String × β)
  | [] => [(k, v)]
  | p :: rest => if p.1 = k then (k, v) :: rest else p :: insertKey k v rest

def eraseKey {β : Type} (k : String) : List (String × β) → List (String × β)
  | [] => []
  | p :: rest => if p.1 = k then eraseKey k rest else p :: eraseKey k rest

/-! ### Cache data model (`cache/manager.go` lines 17-66) -/

/-- `cacheEntry` from `cache/manager.go`. -/
structure cacheEntry where
  value : String
  expiresAt : Int
  imageHash : String
  createdAt : Int
  lastAccess : Int
  accessCount : Int
  deriving Repr, DecidableEq

/-- `cacheStats` from `cache/manager.go` (int64 counters). -/
structure cacheStats where
  hits : Int
  misses : Int
  evictions : Int
  errors : Int
  deriving Repr, DecidableEq

/-- The cache-relevant part of `config.Config` (`cfg.Cache`). -/
structure CacheConfig where
  enabled : Bool
  maxSize : Int
  ttl : Int
  cleanupInterval : Int
  deriving Repr, DecidableEq

/-- `CacheManager` from `cache/manager.go` (the mutex guards the whole
state; the sequential model carries the state explicitly). -/
structure CacheManager where
  config : CacheConfig
  store : List (String × cacheEntry)
  stats : cacheStats
  deriving Repr, DecidableEq

/-- The distinct failure values surfaced by the cache manager:
`common.ErrCacheDisabled` (also used for plain misses and expired
entries), the `fmt.Errorf("image changed")` error, and
`common.ErrCacheFull`. -/
inductive CacheErr where
  | cacheDisabled
  | imageChanged
  | cacheFull
  deriving Repr, DecidableEq

/-- `generateKey` (`cache/manager.go` lines 180-185); `hashImage` is
`hashString`, both are the SHA-256 hex digest `sha`. -/
def generateKey (sha : String → String) (prompt imageData : String) : String :=
  if imageData = "" then "text:" ++ sha prompt
  else "multimodal:" ++ sha prompt ++ ":" ++ sha imageData

/-- `CacheManager.Get` (`cache/manager.go` lines 69-123).
`now` is the value of `time.Now()`; `time.Now().After(e.expiresAt)` is the
strict comparison `e.expiresAt < now`. -/
def CacheManager.get (sha : String → String) (m : CacheManager)
    (prompt imageData : String) (now : Int) : Except CacheErr String × CacheManager :=
  if m.config.enabled = false then (Except.error CacheErr.cacheDisabled, m)
  else
    match lookupKey (generateKey sha prompt imageData) m.store with
    | some entry =>
      if entry.expiresAt < now then
        (Except.error CacheErr.cacheDisabled,
         { m with store := eraseKey (generateKey sha prompt imageData) m.store,
                  stats := { m.stats with evictions := m.stats.evictions + 1 } })
      else if imageData ≠ "" ∧ entry.imageHash ≠ sha imageData then
        (Except.error CacheErr.imageChanged,
         { m with stats := { m.stats with misses := m.stats.misses + 1 } })
      else
        (Except.ok entry.value,
         { m with store := insertKey (generateKey sha prompt imageData)
                    { entry with lastAccess := now, accessCount := entry.accessCount + 1 }
                    m.store,
                  stats := { m.stats with hits := m.stats.hits + 1 } })
    | none =>
      (Except.error CacheErr.cacheDisabled,
       { m with stats := { m.stats with misses := m.stats.misses + 1 } })

/-- The expiry sweep over the store (`cleanup` loop body,
`cache/manager.go` lines 213-219): every entry with
`now.After(entry.expiresAt)` is deleted. -/
def cleanupStore (now : Int) : List (String × cacheEntry) → List (String × cacheEntry)
  | [] => []
  | p :: rest => if p.2.expiresAt < now then cleanupStore now rest
                 else p :: cleanupStore now rest

/-- `CacheManager.cleanup` (`cache/manager.go` lines 209-231): removes all
expired entries, returns the number removed, and counts each removal as an
eviction. -/
def CacheManager.cleanup (m : CacheManager) (now : Int) : Nat × CacheManager :=
  let store' := cleanupStore now m.store
  let count := m.store.length - store'.length
  (count,
   { m with store := store',
            stats := { m.stats with evictions := m.stats.evictions + count } })

/-- Loop body of `evictLRU` (`cache/manager.go` lines 240-248): the
accumulator is `(oldestKey, oldestAccess, lowestAccessCount)`. -/
def lruStep (acc : String × Int × Int) (p : String × cacheEntry) : String × Int × Int :=
  if acc.1 = "" ∨ p.2.accessCount < acc.2.2 ∨
      (p.2.accessCount = acc.2.2 ∧ p.2.lastAccess < acc.2.1) then
    (p.1, p.2.lastAccess, p.2.accessCount)
  else acc

/-- `CacheManager.evictLRU` (`cache/manager.go` lines 234-257). -/
def CacheManager.evictLRU (m : CacheManager) : CacheManager :=
  if (m.store.foldl lruStep ("", 0, 0)).1 ≠ "" then
    { m with store := eraseKey (m.store.foldl lruStep ("", 0, 0)).1 m.store,
             stats := { m.stats with evictions := m.stats.evictions + 1 } }
  else m

/-- The fresh entry written by `Set` (`cache/manager.go` lines 162-170). -/
def newCacheEntry (sha : String → String) (imageData value : String)
    (ttl now : Int) : cacheEntry :=
  { value := value, expiresAt := now + ttl, imageHash := sha imageData,
    createdAt := now, lastAccess := now, accessCount := 0 }

/-- `CacheManager.Set` (`cache/manager.go` lines 126-177). -/
def CacheManager.set (sha : String → String) (m : CacheManager)
    (prompt imageData value : String) (now : Int) : Except CacheErr Unit × CacheManager :=
  if m.config.enabled = false then (Except.ok Unit.unit, m)
  else if (m.store.length : Int) ≥ m.config.maxSize then
    let m1 := (m.cleanup now).2
    let m2 := if (m1.store.length : Int) ≥ m.config.maxSize then m1.evictLRU else m1
    if (m2.store.length : Int) ≥ m.config.maxSize then
      (Except.error CacheErr.cacheFull,
       { m2 with stats := { m2.stats with errors := m2.stats.errors + 1 } })
    else
      (Except.ok Unit.unit,
       { m2 with store := insertKey (generateKey sha prompt imageData)
                   (newCacheEntry sha imageData value m.config.ttl now) m2.store })
  else
    (Except.ok Unit.unit,
     { m with store := insertKey (generateKey sha prompt imageData)
                 (newCacheEntry sha imageData value m.config.ttl now) m.store })

/-! ### Token-bucket rate limiter (`api/middleware/rate_limit.go`) -/

/-- `RateLimiter` from `rate_limit.go` lines 16-22. -/
structure RateLimiter where
  tokens : Int
  capacity : Int
  rate : ℚ
  lastTime : ℚ
  deriving Repr, DecidableEq

/-- `NewRateLimiter` (`rate_limit.go` lines 25-32); `now` is the
construction-time `time.Now()` and `window` is the window in seconds. -/
def NewRateLimiter (requests : Int) (window now : ℚ) : RateLimiter :=
  { tokens := requests, capacity := requests,
    rate := requests / window, lastTime := now }

/-- Go's `int(x)` conversion of a `float64`: truncation toward zero. -/
def goTrunc (q : ℚ) : Int :=
  if 0 ≤ q then ⌊q⌋ else ⌈q⌉

/-- `RateLimiter.Allow` (`rate_limit.go` lines 35-56); `now` is the value
of `time.Now()` at the call. -/
def RateLimiter.allow (rl : RateLimiter) (now : ℚ) : Bool × RateLimiter :=
  let elapsed := now - rl.lastTime
  let newTokens := goTrunc (elapsed * rl.rate)
  let rl1 :=
    if newTokens > 0 then
      { rl with lastTime := now, tokens := min rl.capacity (rl.tokens + newTokens) }
    else { rl with lastTime := now }
  if rl1.tokens > 0 then (true, { rl1 with tokens := rl1.tokens - 1 })
  else (false, rl1)

/-- The state after a whole sequence of `Allow` calls, one per listed
call time. -/
def allowSeq (rl : RateLimiter) (ts : List ℚ) : RateLimiter :=
  ts.foldl (fun s t => (s.allow t).2) rl

/-! ### Deduplication middleware (`internal/api/middleware`, request
deduplication file) -/

/-- The request fingerprint built by `Deduplication` (lines 91-94):
`method + ":" + path`, with `":" + bodyHash` appended when the body hash
is non-empty. -/
def dedupFingerprint (method path bodyHash : String) : String :=
  if bodyHash ≠ "" then method ++ ":" ++ path ++ ":" ++ bodyHash
  else method ++ ":" ++ path

/-- The check-and-record core of `Deduplication` (lines 97-115) for a
handled (POST) request: if the fingerprint was last seen within
`window`, report a duplicate and leave the record untouched; otherwise
record `now` for the fingerprint and report not-duplicate.  The first
component is `isDuplicate` (the 429 "Request too frequent" rejection). -/
def dedupCheck (requests : List (String × Int)) (method path bodyHash : String)
    (now window : Int) : Bool × List (String × Int) :=
  let fp := dedupFingerprint method path bodyHash
  match lookupKey fp requests with
  | some lastTime =>
    if now - lastTime ≤ window then (true, requests)
    else (false, insertKey fp now requests)
  | none => (false, insertKey fp now requests)

/-! ### Bounded work queue (`internal/core/ai/queue/manager.go`) -/

/-- Outcome of one `Manager.Enqueue` call.  `enqueued` stands for the
successful return of a fresh single-use result channel; `queueFull` for
the `fmt.Errorf("queue is full")` return; `closedErr` for the
`fmt.Errorf("queue manager is closed")` return; `panicked` for the Go
runtime abort caused by a send on a closed channel. -/
inductive EnqueueResult where
  | enqueued
  | queueFull
  | closedErr
  | panicked
  deriving Repr, DecidableEq

/-- `queue.Manager`: the buffered channel `queue` is the item list
(capacity `maxSize`), `closed` records whether `Close()` has run (both
the `done` channel and the `queue` channel are closed together). -/
structure QueueManager (α : Type) where
  maxSize : Int
  items : List α
  closed : Bool
  deriving Repr, DecidableEq

/-- `Manager.Enqueue` (`queue/manager.go` lines 62-88) for a live caller
context.  After the occupancy guard, the `select` chooses among its ready
cases: with the manager open and buffer space free only the channel send
is ready; after `Close()` both the send on the now-closed `queue` channel
(which panics) and the receive on the closed `done` channel are ready,
and Go picks one nondeterministically — `sel` is that choice
(`true` = the send case). -/
def QueueManager.enqueue {α : Type} (m : QueueManager α) (x : α) (sel : Bool) :
    EnqueueResult × QueueManager α :=
  if (m.items.length : Int) ≥ m.maxSize then (EnqueueResult.queueFull, m)
  else if m.closed then
    if sel then (EnqueueResult.panicked, m) else (EnqueueResult.closedErr, m)
  else (EnqueueResult.enqueued, { m with items := m.items ++ [x] })

/-- `Manager.Close` (`queue/manager.go` lines 113-117): closes `done`
and the `queue` channel. -/
def QueueManager.close {α : Type} (m : QueueManager α) : QueueManager α :=
  { m with closed := true }

/-- A worker draining one item from the front of the queue channel
(receive on `GetQueue()`). -/
def QueueManager.drain {α : Type} (m : QueueManager α) : Option α × QueueManager α :=
  match m.items with
  | [] => (none, m)
  | x :: rest => (some x, { m with items := rest })

/-- Enqueue a list of payloads one after another, collecting the
outcomes. -/
def enqueueList {α : Type} (m : QueueManager α) (sel : Bool) :
    List α → List EnqueueResult × QueueManager α
  | [] => ([], m)
  | x :: rest =>
    let r := m.enqueue x sel
    let rr := enqueueList r.2 sel rest
    (r.1 :: rr.1, rr.2)

/-! ### Lemmas about the association-list map operations -/

theorem lookupKey_insertKey_self {β : Type} (k : String) (v : β) (l : List (String × β)) :
    lookupKey k (insertKey k v l) = some v := by
  induction l with
  | nil => simp [insertKey, lookupKey]
  | cons p rest ih =>
    by_cases h : p.1 = k
    · simp [insertKey, h, lookupKey]
    · simp [insertKey, h, lookupKey, ih]

theorem lookupKey_insertKey_ne {β : Type} {k' k : String} (v : β) (l : List (String × β))
    (h : k' ≠ k) : lookupKey k' (insertKey k v l) = lookupKey k' l := by
  have hkk : k ≠ k' := Ne.symm h
  induction l with
  | nil => simp [insertKey, lookupKey, hkk]
  | cons p rest ih =>
    by_cases hp : p.1 = k
    · have hp' : p.1 ≠ k' := by rw [hp]; exact hkk
      simp [insertKey, hp, lookupKey, hkk, hp']
    · by_cases hp' : p.1 = k'
      · simp [insertKey, hp, lookupKey, hp', hkk, h]
      · simp [insertKey, hp, lookupKey, hp', ih]

theorem lookupKey_eraseKey_self {β : Type} (k : String) (l : List (String × β)) :
    lookupKey k (eraseKey k l) = none := by
  induction l with
  | nil => simp [eraseKey, lookupKey]
  | cons p rest ih =>
    by_cases h : p.1 = k
    · simpa [eraseKey, h] using ih
    · simp [eraseKey, h, lookupKey, ih]

theorem lookupKey_eraseKey_ne {β : Type} {k' k : String} (l : List (String × β))
    (h : k' ≠ k) : lookupKey k' (eraseKey k l) = lookupKey k' l := by
  have hkk : k ≠ k' := Ne.symm h
  induction l with
  | nil => simp [eraseKey, lookupKey]
  | cons p rest ih =>
    by_cases hp : p.1 = k
    · have hp' : p.1 ≠ k' := by rw [hp]; exact hkk
      simp [eraseKey, hp, lookupKey, hp', hkk, ih]
    · by_cases hp' : p.1 = k'
      · simp [eraseKey, hp, lookupKey, hp', hkk, h]
      · simp [eraseKey, hp, lookupKey, hp', ih]

theorem lookupKey_eraseKey_some {β : Type} {k k' : String} {l : List (String × β)} {v : β}
    (h : lookupKey k (eraseKey k' l) = some v) : lookupKey k l = some v := by
  by_cases hk : k = k'
  · rw [hk, lookupKey_eraseKey_self] at h; exact absurd h (by simp)
  · rwa [lookupKey_eraseKey_ne l hk] at h

theorem lookupKey_mem {β : Type} {k : String} {l : List (String × β)} {v : β}
    (h : lookupKey k l = some v) : (k, v) ∈ l := by
  induction l with
  | nil => simp [lookupKey] at h
  | cons p rest ih =>
    by_cases hp : p.1 = k
    · simp only [lookupKey, hp, if_pos] at h
      obtain ⟨p1, p2⟩ := p
      cases Option.some.inj h
      dsimp at hp
      subst hp
      exact List.mem_cons_self _ _
    · simp only [lookupKey, hp, if_neg, if_false] at h
      exact List.mem_cons_of_mem _ (ih h)

theorem lookupKey_none_of_not_mem {β : Type} {k : String} {l : List (String × β)}
    (h : k ∉ l.map Prod.fst) : lookupKey k l = none := by
  induction l with
  | nil => simp [lookupKey]
  | cons p rest ih =>
    simp only [List.map_cons, List.mem_cons] at h
    push_neg at h
    have hp : p.1 ≠ k := Ne.symm h.1
    simp [lookupKey, hp, ih h.2]

theorem mem_eraseKey {β : Type} {k : String} {l : List (String × β)} {p : String × β}
    (h : p ∈ eraseKey k l) : p ∈ l := by
  induction l with
  | nil => simp [eraseKey] at h
  | cons q rest ih =>
    by_cases hq : q.1 = k
    · simp only [eraseKey, hq, if_pos] at h
      exact List.mem_cons_of_mem _ (ih h)
    · simp only [eraseKey, hq, if_neg, if_false, List.mem_cons] at h
      rcases h with h | h
      · exact h ▸ List.mem_cons_self _ _
      · exact List.mem_cons_of_mem _ (ih h)

theorem mem_insertKey {β : Type} {k : String} {v : β} {l : List (String × β)}
    {p : String × β} (h : p ∈ insertKey k v l) : p = (k, v) ∨ p ∈ l := by
  induction l with
  | nil => simpa [insertKey] using h
  | cons q rest ih =>
    by_cases hq : q.1 = k
    · simp only [insertKey, hq, if_pos, List.mem_cons] at h
      rcases h with h | h
      · exact Or.inl h
      · exact Or.inr (List.mem_cons_of_mem _ h)
    · simp only [insertKey, hq, if_neg, if_false, List.mem_cons] at h
      rcases h with h | h
      · exact Or.inr (h ▸ List.mem_cons_self _ _)
      · rcases ih h with h' | h'
        · exact Or.inl h'
        · exact Or.inr (List.mem_cons_of_mem _ h')

theorem mem_cleanupStore {now : Int} {l : List (String × cacheEntry)}
    {p : String × cacheEntry} (h : p ∈ cleanupStore now l) : p ∈ l := by
  induction l with
  | nil => simp [cleanupStore] at h
  | cons q rest ih =>
    by_cases hq : q.2.expiresAt < now
    · simp only [cleanupStore, hq, if_pos] at h
      exact List.mem_cons_of_mem _ (ih h)
    · simp only [cleanupStore, hq, if_neg, if_false, List.mem_cons] at h
      rcases h with h | h
      · exact h ▸ List.mem_cons_self _ _
      · exact List.mem_cons_of_mem _ (ih h)

theorem lookupKey_cleanupStore {now : Int} {k : String} {l : List (String × cacheEntry)}
    (hnd : (l.map Prod.fst).Nodup) :
    lookupKey k (cleanupStore now l) =
      (lookupKey k l).bind (fun e => if e.expiresAt < now then none else some e) := by
  induction l with
  | nil => simp [cleanupStore, lookupKey]
  | cons q rest ih =>
    simp only [List.map_cons, List.nodup_cons] at hnd
    by_cases hq : q.1 = k
    · have hnone : lookupKey k rest = none :=
        lookupKey_none_of_not_mem (hq ▸ hnd.1)
      by_cases hexp : q.2.expiresAt < now
      · have := ih hnd.2
        rw [hnone] at this
        simp only [Option.none_bind] at this
        simp [cleanupStore, hexp, this, lookupKey, hq]
      · simp [cleanupStore, hexp, lookupKey, hq]
    · by_cases hexp : q.2.expiresAt < now
      · simp only [cleanupStore, hexp, if_pos, lookupKey, hq, if_neg, if_false]
        exact ih hnd.2
      · simp only [cleanupStore, hexp, if_neg, if_false, lookupKey, hq]
        exact ih hnd.2

theorem lookupKey_cleanupStore_iff {now : Int} {k : String}
    {l : List (String × cacheEntry)} (hnd : (l.map Prod.fst).Nodup) (e : cacheEntry) :
    lookupKey k (cleanupStore now l) = some e ↔
      lookupKey k l = some e ∧ ¬ e.expiresAt < now := by
  rw [lookupKey_cleanupStore hnd]
  rcases h : lookupKey k l with _ | v
  · simp
  · by_cases hexp : v.expiresAt < now
    · simp only [Option.some_bind, hexp, if_pos]
      constructor
      · intro hh; cases hh
      · rintro ⟨he, hne⟩
        cases Option.some.inj he
        exact absurd hexp hne
    · simp only [Option.some_bind, hexp, if_neg, if_false]
      constructor
      · intro hh; cases Option.some.inj hh; exact ⟨rfl, hexp⟩
      · rintro ⟨he, _⟩; cases Option.some.inj he; rfl

theorem eraseKey_of_no_key {β : Type} {k : String} {l : List (String × β)}
    (h : ∀ p ∈ l, p.1 ≠ k) : eraseKey k l = l := by
  induction l with
  | nil => rfl
  | cons q rest ih =>
    have hq : q.1 ≠ k := h q (List.mem_cons_self _ _)
    simp [eraseKey, hq, ih fun p hp => h p (List.mem_cons_of_mem _ hp)]

theorem length_eraseKey_of_mem {β : Type} {k : String} {l : List (String × β)}
    (hnd : (l.map Prod.fst).Nodup) (hmem : k ∈ l.map Prod.fst) :
    (eraseKey k l).length + 1 = l.length := by
  induction l with
  | nil => simp at hmem
  | cons q rest ih =>
    simp only [List.map_cons, List.nodup_cons] at hnd
    simp only [List.map_cons, List.mem_cons] at hmem
    by_cases hq : q.1 = k
    · have hrest : eraseKey k rest = rest := by
        apply eraseKey_of_no_key
        intro p hp hpk
        exact hnd.1 (hq ▸ hpk ▸ List.mem_map_of_mem Prod.fst hp)
      simp [eraseKey, hq, hrest]
    · rcases hmem with hmem | hmem
      · exact absurd hmem.symm hq
      · simp [eraseKey, hq, ← ih hnd.2 hmem]

/-! ### Lemmas about the LRU selection fold -/

/-- The eviction preference order on `(lastAccess, accessCount)` pairs:
`a` is at least as eligible for eviction as `b` when it has a strictly
smaller access count, or an equal count and a lastAccess that is no
newer. -/
def lruLE (a b : Int × Int) : Prop :=
  a.2 < b.2 ∨ (a.2 = b.2 ∧ a.1 ≤ b.1)

theorem lruLE_refl (a : Int × Int) : lruLE a a := Or.inr ⟨rfl, le_refl _⟩

theorem lruLE_trans {a b c : Int × Int} (h1 : lruLE a b) (h2 : lruLE b c) : lruLE a c := by
  rcases h1 with h1 | ⟨h1, h1'⟩ <;> rcases h2 with h2 | ⟨h2, h2'⟩
  · exact Or.inl (h1.trans h2)
  · exact Or.inl (h2 ▸ h1)
  · exact Or.inl (h1 ▸ h2)
  · exact Or.inr ⟨h1.trans h2, h1'.trans h2'⟩

theorem lruLE_of_not_better {q : String × cacheEntry} {acc : String × Int × Int}
    (h : ¬ (q.2.accessCount < acc.2.2 ∨
      (q.2.accessCount = acc.2.2 ∧ q.2.lastAccess < acc.2.1))) :
    lruLE acc.2 (q.2.lastAccess, q.2.accessCount) := by
  push_neg at h
  rcases eq_or_lt_of_le h.1 with heq | hlt
  · exact Or.inr ⟨heq, h.2 heq.symm⟩
  · exact Or.inl hlt

theorem lruLE_of_better {q : String × cacheEntry} {acc : String × Int × Int}
    (h : q.2.accessCount < acc.2.2 ∨
      (q.2.accessCount = acc.2.2 ∧ q.2.lastAccess < acc.2.1)) :
    lruLE (q.2.lastAccess, q.2.accessCount) acc.2 := by
  rcases h with h | ⟨h1, h2⟩
  · exact Or.inl h
  · exact Or.inr ⟨h1, le_of_lt h2⟩

theorem foldl_lruStep_mem (l : List (String × cacheEntry)) (acc : String × Int × Int) :
    l.foldl lruStep acc = acc ∨
      ∃ p ∈ l, l.foldl lruStep acc = (p.1, p.2.lastAccess, p.2.accessCount) := by
  induction l generalizing acc with
  | nil => exact Or.inl rfl
  | cons q t ih =>
    rw [List.foldl_cons]
    rcases ih (lruStep acc q) with h | ⟨p, hp, h⟩
    · rw [h]
      unfold lruStep
      split
      · exact Or.inr ⟨q, List.mem_cons_self _ _, rfl⟩
      · exact Or.inl rfl
    · exact Or.inr ⟨p, List.mem_cons_of_mem _ hp, h⟩

theorem foldl_lruStep_min (l : List (String × cacheEntry)) (acc : String × Int × Int)
    (hkeys : ∀ p ∈ l, p.1 ≠ "") :
    (acc.1 ≠ "" → lruLE (l.foldl lruStep acc).2 acc.2 ∧ (l.foldl lruStep acc).1 ≠ "") ∧
    (∀ p ∈ l, lruLE (l.foldl lruStep acc).2 (p.2.lastAccess, p.2.accessCount)) ∧
    (l ≠ [] → (l.foldl lruStep acc).1 ≠ "") := by
  induction l generalizing acc with
  | nil =>
    refine ⟨fun h => ⟨lruLE_refl _, h⟩, ?_, ?_⟩
    · intro p hp; simp at hp
    · intro h; exact absurd rfl h
  | cons q t ih =>
    have hq1 : q.1 ≠ "" := hkeys q (List.mem_cons_self _ _)
    have hkeys' : ∀ p ∈ t, p.1 ≠ "" := fun p hp => hkeys p (List.mem_cons_of_mem _ hp)
    rw [List.foldl_cons]
    by_cases hstep : acc.1 = "" ∨ q.2.accessCount < acc.2.2 ∨
        (q.2.accessCount = acc.2.2 ∧ q.2.lastAccess < acc.2.1)
    · have hs : lruStep acc q = (q.1, q.2.lastAccess, q.2.accessCount) := by
        unfold lruStep; rw [if_pos hstep]
      rw [hs]
      obtain ⟨ih1, ih2, _⟩ := ih (q.1, q.2.lastAccess, q.2.accessCount) hkeys'
      have hle := ih1 hq1
      refine ⟨?_, ?_, fun _ => hle.2⟩
      · intro hacc
        rcases hstep with hstep | hstep
        · exact absurd hstep hacc
        · exact ⟨lruLE_trans hle.1 (lruLE_of_better hstep), hle.2⟩
      · intro p hp
        rcases List.mem_cons.mp hp with hp | hp
        · subst hp; exact hle.1
        · exact ih2 p hp
    · push_neg at hstep
      have hs : lruStep acc q = acc := by
        unfold lruStep
        rw [if_neg]
        push_neg
        exact hstep
      rw [hs]
      obtain ⟨ih1, ih2, _⟩ := ih acc hkeys'
      have hle := ih1 hstep.1
      refine ⟨fun _ => hle, ?_, fun _ => hle.2⟩
      intro p hp
      rcases List.mem_cons.mp hp with hp | hp
      · subst hp
        exact lruLE_trans hle.1 (lruLE_of_not_better (by push_neg; exact hstep.2))
      · exact ih2 p hp

/-! ### Lemmas about cache-key strings -/

theorem string_data_inj {a b : String} (h : a.data = b.data) : a = b :=
  String.ext h

theorem string_append_left_cancel {a b c : String} (h : a ++ b = a ++ c) : b = c := by
  apply string_data_inj
  have hd := congrArg String.data h
  rw [String.data_append, String.data_append] at hd
  exact List.append_cancel_left hd

theorem text_key_ne_multimodal_key (a b c : String) :
    "text:" ++ a ≠ "multimodal:" ++ b ++ ":" ++ c := by
  intro h
  have hd := congrArg String.data h
  simp only [String.data_append] at hd
  have h0 := congrArg (fun l => l.head?) hd
  simp [String.data] at h0

theorem multimodal_key_inj {a b a' b' : String}
    (hlen : a.length = a'.length)
    (h : "multimodal:" ++ a ++ ":" ++ b = "multimodal:" ++ a' ++ ":" ++ b') :
    a = a' ∧ b = b' := by
  have hd := congrArg String.data h
  simp only [String.data_append, List.append_assoc] at hd
  have hd' := List.append_cancel_left hd
  have hsplit := List.append_inj hd' hlen
  refine ⟨string_data_inj hsplit.1, ?_⟩
  exact string_data_inj (List.append_cancel_left hsplit.2)

/-! ### Small helper facts and concrete fixtures -/

instance {ε α : Type} [DecidableEq ε] [DecidableEq α] : DecidableEq (Except ε α) := fun
  | .error e, .error e' =>
    if h : e = e' then isTrue (by rw [h]) else isFalse (by intro hh; cases hh; exact h rfl)
  | .error _, .ok _ => isFalse (by intro hh; cases hh)
  | .ok _, .error _ => isFalse (by intro hh; cases hh)
  | .ok a, .ok a' =>
    if h : a = a' then isTrue (by rw [h]) else isFalse (by intro hh; cases hh; exact h rfl)

theorem evictLRU_store_cases (m : CacheManager) :
    m.evictLRU.store = m.store ∨ ∃ k, m.evictLRU.store = eraseKey k m.store := by
  unfold CacheManager.evictLRU
  split
  · exact Or.inr ⟨_, rfl⟩
  · exact Or.inl rfl

theorem evictLRU_errors (m : CacheManager) :
    m.evictLRU.stats.errors = m.stats.errors := by
  unfold CacheManager.evictLRU
  split <;> rfl

theorem evictLRU_config (m : CacheManager) : m.evictLRU.config = m.config := by
  unfold CacheManager.evictLRU
  split <;> rfl

/-- A concrete stand-in for the SHA-256 hex digest in executable
scenarios whose claims do not depend on digest length (only on digest
inequality for unequal inputs): the identity function. -/
def shaId : String → String := fun s => s

/-- A concrete stand-in for the SHA-256 hex digest in scenarios that need
the digest's fixed output length: a constant 64-character string. -/
def sha64 : String → String := fun _ => String.mk (List.replicate 64 'a')

theorem sha64_length (s : String) : (sha64 s).length = 64 := by
  simp [sha64, String.length]

/-! ### Concrete scenario fixtures -/

/-- A cache configuration with `maxSize = 2` (spec §8 LRU scenario). -/
def cacheCfg2 : CacheConfig :=
  { enabled := true, maxSize := 2, ttl := 100, cleanupInterval := 10 }

/-- The LRU scenario state just before inserting C: keys A and B inserted
at times 0, then each read once (A at time 1, B at time 2), so both have
`accessCount = 1` and A has the older `lastAccess`. -/
def lruScenarioPre : CacheManager :=
  ((((({ config := cacheCfg2, store := [], stats := ⟨0, 0, 0, 0⟩ } : CacheManager).set
    shaId "A" "" "vA" 0).2.set shaId "B" "" "vB" 0).2.get shaId "A" "" 1).2.get
    shaId "B" "" 2).2

/-- The LRU scenario state after `Set` of key C at time 3 while full. -/
def lruScenarioFinal : CacheManager := (lruScenarioPre.set shaId "C" "" "vC" 3).2

/-- A two-entry store used as the concrete instance for the universal
eviction-policy statement. -/
def lruWitnessCache : CacheManager :=
  { config := cacheCfg2,
    store := [("k1", { value := "v1", expiresAt := 50, imageHash := "",
                       createdAt := 0, lastAccess := 4, accessCount := 2 }),
              ("k2", { value := "v2", expiresAt := 50, imageHash := "",
                       createdAt := 0, lastAccess := 3, accessCount := 1 })],
    stats := ⟨0, 0, 0, 0⟩ }

/-! ### Claim theorems -/

/-- C2: for every non-empty cache store (whose keys are distinct and
non-empty, as generated cache keys are), `evictLRU` removes exactly one
entry, and that entry is minimal in the eviction order — smallest
`accessCount`, with ties broken toward the oldest `lastAccess`; and, in
the concrete `maxSize = 2` scenario, after inserting A and B (each
accessed once) a `Set` of a new key C while full succeeds, evicts exactly
one of {A, B} — namely A, the one with the older access — and leaves the
store with exactly 2 entries including C. -/
theorem evictLRU_policy (m : CacheManager) (hne : m.store ≠ [])
    (hnd : (m.store.map Prod.fst).Nodup)
    (hkeys : ∀ p ∈ m.store, p.1 ≠ "") :
    (∃ k e, (k, e) ∈ m.store ∧
      (∀ p ∈ m.store, e.accessCount < p.2.accessCount ∨
        (e.accessCount = p.2.accessCount ∧ e.lastAccess ≤ p.2.lastAccess)) ∧
      m.evictLRU.store = eraseKey k m.store ∧
      m.evictLRU.store.length + 1 = m.store.length) ∧
    (lruScenarioPre.store.length = 2 ∧
     (lruScenarioPre.set shaId "C" "" "vC" 3).1 = Except.ok Unit.unit ∧
     lruScenarioFinal.store.length = 2 ∧
     lookupKey (generateKey shaId "C" "") lruScenarioFinal.store ≠ none ∧
     lookupKey (generateKey shaId "A" "") lruScenarioFinal.store = none ∧
     lookupKey (generateKey shaId "B" "") lruScenarioFinal.store ≠ none) := by
  constructor
  · have hmem := foldl_lruStep_mem m.store ("", 0, 0)
    have hmin := foldl_lruStep_min m.store ("", 0, 0) hkeys
    have hr1 : (m.store.foldl lruStep ("", 0, 0)).1 ≠ "" := hmin.2.2 hne
    rcases hmem with h | ⟨p, hp, h⟩
    · rw [h] at hr1
      exact absurd rfl hr1
    · have hstore : m.evictLRU.store = eraseKey p.1 m.store := by
        unfold CacheManager.evictLRU
        rw [if_pos hr1, h]
      refine ⟨p.1, p.2, by simpa using hp, ?_, hstore, ?_⟩
      · intro q hq
        have := hmin.2.1 q hq
        rw [h] at this
        exact this
      · rw [hstore]
        exact length_eraseKey_of_mem hnd (List.mem_map_of_mem Prod.fst hp)
  · refine ⟨by decide, by decide, by decide, by decide, by decide, by decide⟩

theorem evictLRU_policy_witness :
    ((∃ k e, (k, e) ∈ lruWitnessCache.store ∧
      (∀ p ∈ lruWitnessCache.store, e.accessCount < p.2.accessCount ∨
        (e.accessCount = p.2.accessCount ∧ e.lastAccess ≤ p.2.lastAccess)) ∧
      lruWitnessCache.evictLRU.store = eraseKey k lruWitnessCache.store ∧
      lruWitnessCache.evictLRU.store.length + 1 = lruWitnessCache.store.length) ∧
    (lruScenarioPre.store.length = 2 ∧
     (lruScenarioPre.set shaId "C" "" "vC" 3).1 = Except.ok Unit.unit ∧
     lruScenarioFinal.store.length = 2 ∧
     lookupKey (generateKey shaId "C" "") lruScenarioFinal.store ≠ none ∧
     lookupKey (generateKey shaId "A" "") lruScenarioFinal.store = none ∧
     lookupKey (generateKey shaId "B" "") lruScenarioFinal.store ≠ none)) :=
  evictLRU_policy lruWitnessCache (by decide) (by decide) (by decide)

/-- A full single-slot cache (occupancy = MaxSize = 1) with an
unexpired entry, used as the concrete instance for the `Set` escalation
statement. -/
def fullCache1 : CacheManager :=
  { config := { enabled := true, maxSize := 1, ttl := 100, cleanupInterval := 10 },
    store := [("k", { value := "v", expiresAt := 50, imageHash := "",
                      createdAt := 0, lastAccess := 0, accessCount := 0 })],
    stats := ⟨0, 0, 0, 0⟩ }

/-- C1: when a `Set` arrives with occupancy at least `MaxSize`, the code
escalates in order: the expiry sweep removes exactly the entries whose
`expiresAt` has passed; then, only if occupancy still meets `MaxSize`,
one LRU eviction pass runs; the call fails with `CacheFull` exactly when
occupancy still meets `MaxSize` after both steps, and on that failure the
new entry is not admitted and the store is exactly the post-escalation
store, every surviving binding being unchanged from the original store;
otherwise the new entry is admitted into the post-escalation store. -/
theorem set_full_escalation (sha : String → String) (m : CacheManager)
    (prompt imageData value : String) (now : Int)
    (hen : m.config.enabled = true)
    (hnd : (m.store.map Prod.fst).Nodup)
    (hfull : (m.store.length : Int) ≥ m.config.maxSize) :
    let swept := (m.cleanup now).2
    let afterLRU :=
      if (swept.store.length : Int) ≥ m.config.maxSize then swept.evictLRU else swept
    let r := m.set sha prompt imageData value now
    (∀ k e, lookupKey k swept.store = some e ↔
      lookupKey k m.store = some e ∧ ¬ e.expiresAt < now) ∧
    (r.1 = Except.error CacheErr.cacheFull ↔
      (afterLRU.store.length : Int) ≥ m.config.maxSize) ∧
    ((afterLRU.store.length : Int) ≥ m.config.maxSize →
      r.2.store = afterLRU.store ∧
      r.2.stats.errors = m.stats.errors + 1 ∧
      (∀ k e, lookupKey k r.2.store = some e → lookupKey k m.store = some e)) ∧
    ((afterLRU.store.length : Int) < m.config.maxSize →
      r.1 = Except.ok Unit.unit ∧
      r.2.store = insertKey (generateKey sha prompt imageData)
        (newCacheEntry sha imageData value m.config.ttl now) afterLRU.store) := by
  intro swept afterLRU r
  have hsweep : ∀ k e, lookupKey k swept.store = some e ↔
      lookupKey k m.store = some e ∧ ¬ e.expiresAt < now :=
    fun k e => lookupKey_cleanupStore_iff hnd e
  have hset : r = (if (afterLRU.store.length : Int) ≥ m.config.maxSize then
      (Except.error CacheErr.cacheFull,
       { afterLRU with stats := { afterLRU.stats with errors := afterLRU.stats.errors + 1 } })
    else
      (Except.ok Unit.unit,
       { afterLRU with store := insertKey (generateKey sha prompt imageData)
                         (newCacheEntry sha imageData value m.config.ttl now)
                         afterLRU.store })) := by
    show m.set sha prompt imageData value now = _
    unfold CacheManager.set
    rw [if_neg (by rw [hen]; simp), if_pos hfull]
  have herr : afterLRU.stats.errors = m.stats.errors := by
    show (if (swept.store.length : Int) ≥ m.config.maxSize then
        swept.evictLRU else swept).stats.errors = m.stats.errors
    split
    · rw [evictLRU_errors]
      rfl
    · rfl
  have hsub : ∀ k e, lookupKey k afterLRU.store = some e → lookupKey k m.store = some e := by
    intro k e hk
    have hk' : lookupKey k swept.store = some e := by
      revert hk
      show lookupKey k (if (swept.store.length : Int) ≥ m.config.maxSize then
          swept.evictLRU else swept).store = some e → _
      split
      · intro hk
        rcases evictLRU_store_cases swept with hc | ⟨k', hc⟩
        · rwa [hc] at hk
        · rw [hc] at hk
          exact lookupKey_eraseKey_some hk
      · exact id
    exact ((hsweep k e).mp hk').1
  refine ⟨hsweep, ?_, ?_, ?_⟩
  · rw [hset]
    by_cases hc : (afterLRU.store.length : Int) ≥ m.config.maxSize
    · rw [if_pos hc]
      simp [hc]
    · rw [if_neg hc]
      simp [hc]
  · intro hc
    rw [hset, if_pos hc]
    exact ⟨rfl, by simpa using herr, hsub⟩
  · intro hc
    rw [hset, if_neg (not_le.mpr hc)]
    exact ⟨rfl, rfl⟩

theorem set_full_escalation_witness :
    (let swept := (fullCache1.cleanup 10).2
     let afterLRU :=
       if (swept.store.length : Int) ≥ fullCache1.config.maxSize then swept.evictLRU else swept
     let r := fullCache1.set shaId "p" "" "v2" 10
     (∀ k e, lookupKey k swept.store = some e ↔
       lookupKey k fullCache1.store = some e ∧ ¬ e.expiresAt < 10) ∧
     (r.1 = Except.error CacheErr.cacheFull ↔
       (afterLRU.store.length : Int) ≥ fullCache1.config.maxSize) ∧
     ((afterLRU.store.length : Int) ≥ fullCache1.config.maxSize →
       r.2.store = afterLRU.store ∧
       r.2.stats.errors = fullCache1.stats.errors + 1 ∧
       (∀ k e, lookupKey k r.2.store = some e → lookupKey k fullCache1.store = some e)) ∧
     ((afterLRU.store.length : Int) < fullCache1.config.maxSize →
       r.1 = Except.ok Unit.unit ∧
       r.2.store = insertKey (generateKey shaId "p" "")
         (newCacheEntry shaId "" "v2" fullCache1.config.ttl 10) afterLRU.store)) :=
  set_full_escalation shaId fullCache1 "p" "" "v2" 10 (by decide) (by decide) (by decide)

/-- A stored entry whose `expiresAt` is exactly 5, for the expiry
boundary analysis. -/
def entryB : cacheEntry :=
  { value := "v", expiresAt := 5, imageHash := "",
    createdAt := 0, lastAccess := 0, accessCount := 0 }

/-- A cache holding `entryB` under the key generated for prompt "p" with
no image. -/
def mBoundary : CacheManager :=
  { config := { enabled := true, maxSize := 10, ttl := 5, cleanupInterval := 10 },
    store := [(generateKey shaId "p" "", entryB)],
    stats := ⟨0, 0, 0, 0⟩ }

/-- C3 counterexample: at `now = expiresAt` (so `now >= expiresAt` as the
claim requires) a `Get` of the stored fingerprint is a HIT — it returns
the value as found, removes nothing and counts no eviction — because the
code expires entries only at `now > expiresAt` (Go `time.Now().After`). -/
theorem get_at_exact_expiry_is_hit :
    lookupKey (generateKey shaId "p" "") mBoundary.store = some entryB ∧
    (5 : Int) ≥ entryB.expiresAt ∧
    (mBoundary.get shaId "p" "" 5).1 = Except.ok "v" ∧
    (mBoundary.get shaId "p" "" 5).2.store.length = mBoundary.store.length ∧
    (mBoundary.get shaId "p" "" 5).2.stats.evictions = mBoundary.stats.evictions := by
  refine ⟨by decide, by decide, by decide, by decide, by decide⟩

/-- C3 (amended to the strict boundary the code implements): for every
stored fingerprint, a `Get` at a time `now` with `now > expiresAt`
returns not-found, removes the entry from the store (the store shrinks by
one, so a subsequent `Stats` size is smaller), and counts the removal as
an eviction, not as a miss. -/
theorem get_expired_entry_evicted (sha : String → String) (m : CacheManager)
    (prompt imageData : String) (now : Int) (e : cacheEntry)
    (hen : m.config.enabled = true)
    (hnd : (m.store.map Prod.fst).Nodup)
    (hl : lookupKey (generateKey sha prompt imageData) m.store = some e)
    (hexp : now > e.expiresAt) :
    let r := m.get sha prompt imageData now
    r.1 = Except.error CacheErr.cacheDisabled ∧
    lookupKey (generateKey sha prompt imageData) r.2.store = none ∧
    r.2.store.length + 1 = m.store.length ∧
    r.2.stats.evictions = m.stats.evictions + 1 ∧
    r.2.stats.misses = m.stats.misses ∧
    r.2.stats.hits = m.stats.hits := by
  intro r
  have hget : r = (Except.error CacheErr.cacheDisabled,
      { m with store := eraseKey (generateKey sha prompt imageData) m.store,
               stats := { m.stats with evictions := m.stats.evictions + 1 } }) := by
    show m.get sha prompt imageData now = _
    have hexp' : e.expiresAt < now := hexp
    simp [CacheManager.get, hen, hl, hexp']
  rw [hget]
  refine ⟨rfl, lookupKey_eraseKey_self _ _, ?_, rfl, rfl, rfl⟩
  exact length_eraseKey_of_mem hnd (List.mem_map_of_mem Prod.fst (lookupKey_mem hl))

theorem get_expired_entry_evicted_witness :
    (let r := mBoundary.get shaId "p" "" 6
     r.1 = Except.error CacheErr.cacheDisabled ∧
     lookupKey (generateKey shaId "p" "") r.2.store = none ∧
     r.2.store.length + 1 = mBoundary.store.length ∧
     r.2.stats.evictions = mBoundary.stats.evictions + 1 ∧
     r.2.stats.misses = mBoundary.stats.misses ∧
     r.2.stats.hits = mBoundary.stats.hits) :=
  get_expired_entry_evicted shaId mBoundary "p" "" 6 entryB
    (by decide) (by decide) (by decide) (by decide)

/-- The store right after a successful, non-escalating `Set`
(`cache/manager.go` line 163): the fresh entry inserted at the generated
key. -/
def afterSetStore (sha : String → String) (m : CacheManager)
    (prompt img value : String) (now : Int) : List (String × cacheEntry) :=
  insertKey (generateKey sha prompt img)
    (newCacheEntry sha img value m.config.ttl now) m.store

/-- C4: after `Set(F, img1, v)`, a `Get(F, img2)` with a different image
hash returns not-found and is counted as a miss (the generated key embeds
the image hash, so the lookup misses on an absent key), while the entry
stored for `(F, img1)` remains present, and a subsequent `Get(F, img1)`
within the TTL still returns `v` as found. -/
theorem set_then_get_changed_image (sha : String → String) (m : CacheManager)
    (prompt img1 img2 value : String) (now t2 : Int)
    (hen : m.config.enabled = true)
    (himg1 : img1 ≠ "") (himg2 : img2 ≠ "")
    (hhash : sha img1 ≠ sha img2)
    (hroom : (m.store.length : Int) < m.config.maxSize)
    (hfresh2 : lookupKey (generateKey sha prompt img2) m.store = none)
    (httl : ¬ now + m.config.ttl < t2) :
    (m.set sha prompt img1 value now).1 = Except.ok Unit.unit ∧
    ((m.set sha prompt img1 value now).2.get sha prompt img2 t2).1 =
      Except.error CacheErr.cacheDisabled ∧
    ((m.set sha prompt img1 value now).2.get sha prompt img2 t2).2.stats.misses =
      (m.set sha prompt img1 value now).2.stats.misses + 1 ∧
    lookupKey (generateKey sha prompt img1)
        ((m.set sha prompt img1 value now).2.get sha prompt img2 t2).2.store =
      some (newCacheEntry sha img1 value m.config.ttl now) ∧
    (((m.set sha prompt img1 value now).2.get sha prompt img2 t2).2.get
        sha prompt img1 t2).1 = Except.ok value := by
  have hnotfull : ¬ (m.store.length : Int) ≥ m.config.maxSize := not_le.mpr hroom
  have hkeyne : generateKey sha prompt img2 ≠ generateKey sha prompt img1 := by
    unfold generateKey
    rw [if_neg himg1, if_neg himg2]
    intro h
    exact hhash (string_append_left_cancel h).symm
  have h1 : m.set sha prompt img1 value now =
      (Except.ok Unit.unit,
       { m with store := afterSetStore sha m prompt img1 value now }) := by
    simp [CacheManager.set, hen, hnotfull, afterSetStore]
  have hlk2 : lookupKey (generateKey sha prompt img2)
      (afterSetStore sha m prompt img1 value now) = none := by
    unfold afterSetStore
    rw [lookupKey_insertKey_ne _ _ hkeyne]
    exact hfresh2
  have h2 : ({ m with store := afterSetStore sha m prompt img1 value now } :
        CacheManager).get sha prompt img2 t2 =
      (Except.error CacheErr.cacheDisabled,
       { m with store := afterSetStore sha m prompt img1 value now,
                stats := { m.stats with misses := m.stats.misses + 1 } }) := by
    simp [CacheManager.get, hen, hlk2]
  have hlk1 : lookupKey (generateKey sha prompt img1)
      (afterSetStore sha m prompt img1 value now) =
      some (newCacheEntry sha img1 value m.config.ttl now) :=
    lookupKey_insertKey_self _ _ _
  have h3 : (({ m with store := afterSetStore sha m prompt img1 value now,
                       stats := { m.stats with misses := m.stats.misses + 1 } } :
        CacheManager).get sha prompt img1 t2).1 = Except.ok value := by
    simp [CacheManager.get, hen, hlk1, httl, newCacheEntry]
  rw [h1, h2]
  exact ⟨rfl, rfl, rfl, hlk1, h3⟩

theorem set_then_get_changed_image_witness :
    (let mE : CacheManager := { config := cacheCfg2, store := [], stats := ⟨0, 0, 0, 0⟩ }
     (mE.set shaId "p" "i1" "v" 0).1 = Except.ok Unit.unit ∧
     ((mE.set shaId "p" "i1" "v" 0).2.get shaId "p" "i2" 50).1 =
       Except.error CacheErr.cacheDisabled ∧
     ((mE.set shaId "p" "i1" "v" 0).2.get shaId "p" "i2" 50).2.stats.misses =
       (mE.set shaId "p" "i1" "v" 0).2.stats.misses + 1 ∧
     lookupKey (generateKey shaId "p" "i1")
         ((mE.set shaId "p" "i1" "v" 0).2.get shaId "p" "i2" 50).2.store =
       some (newCacheEntry shaId "i1" "v" mE.config.ttl 0) ∧
     (((mE.set shaId "p" "i1" "v" 0).2.get shaId "p" "i2" 50).2.get
         shaId "p" "i1" 50).1 = Except.ok "v") :=
  set_then_get_changed_image shaId
    { config := cacheCfg2, store := [], stats := ⟨0, 0, 0, 0⟩ }
    "p" "i1" "i2" "v" 0 50 (by decide) (by decide) (by decide) (by decide)
    (by decide) (by decide) (by decide)

/-! ### Reachable cache states and the key/imageHash consistency invariant -/

/-- Every binding of the store keyed by a generated multimodal key carries
the image hash embedded in that key. -/
def StoreImageHashInv (sha : String → String) (store : List (String × cacheEntry)) : Prop :=
  ∀ p ∈ store, ∀ prm img, img ≠ "" → p.1 = generateKey sha prm img →
    p.2.imageHash = sha img

/-- Cache states reachable from a fresh manager (`NewManager`) through
`Set` and `Get` calls. -/
inductive Reach (sha : String → String) : CacheManager → Prop where
  | init (cfg : CacheConfig) :
      Reach sha { config := cfg, store := [], stats := ⟨0, 0, 0, 0⟩ }
  | set (m : CacheManager) (prompt img v : String) (now : Int) :
      Reach sha m → Reach sha (m.set sha prompt img v now).2
  | get (m : CacheManager) (prompt img : String) (now : Int) :
      Reach sha m → Reach sha (m.get sha prompt img now).2

/-- The state `Set` escalates to under write pressure: the expiry sweep,
then one LRU eviction pass if occupancy still meets `MaxSize`. -/
def escalatedBase (m : CacheManager) (now : Int) : CacheManager :=
  if (((m.cleanup now).2).store.length : Int) ≥ m.config.maxSize
  then ((m.cleanup now).2).evictLRU else (m.cleanup now).2

theorem escalatedBase_store_sub (m : CacheManager) (now : Int) :
    ∀ p ∈ (escalatedBase m now).store, p ∈ m.store := by
  intro p hp
  unfold escalatedBase at hp
  by_cases h : (((m.cleanup now).2).store.length : Int) ≥ m.config.maxSize
  · rw [if_pos h] at hp
    rcases evictLRU_store_cases (m.cleanup now).2 with hc | ⟨k', hc⟩
    · rw [hc] at hp
      exact mem_cleanupStore hp
    · rw [hc] at hp
      exact mem_cleanupStore (mem_eraseKey hp)
  · rw [if_neg h] at hp
    exact mem_cleanupStore hp

theorem set_store_cases (sha : String → String) (m : CacheManager)
    (prompt img v : String) (now : Int) :
    (m.set sha prompt img v now).2.store = m.store ∨
    (m.set sha prompt img v now).2.store = (escalatedBase m now).store ∨
    (m.set sha prompt img v now).2.store = insertKey (generateKey sha prompt img)
      (newCacheEntry sha img v m.config.ttl now) m.store ∨
    (m.set sha prompt img v now).2.store = insertKey (generateKey sha prompt img)
      (newCacheEntry sha img v m.config.ttl now) (escalatedBase m now).store := by
  by_cases hen : m.config.enabled = false
  · left
    simp [CacheManager.set, hen]
  · by_cases hfull : (m.store.length : Int) ≥ m.config.maxSize
    · have hset : m.set sha prompt img v now =
          (if ((escalatedBase m now).store.length : Int) ≥ m.config.maxSize then
            (Except.error CacheErr.cacheFull,
             { escalatedBase m now with stats :=
                 { (escalatedBase m now).stats with
                     errors := (escalatedBase m now).stats.errors + 1 } })
          else
            (Except.ok Unit.unit,
             { escalatedBase m now with
                 store := insertKey (generateKey sha prompt img)
                            (newCacheEntry sha img v m.config.ttl now)
                            (escalatedBase m now).store })) := by
        unfold CacheManager.set
        rw [if_neg hen, if_pos hfull]
        rfl
      by_cases hf2 : ((escalatedBase m now).store.length : Int) ≥ m.config.maxSize
      · right; left
        rw [hset, if_pos hf2]
      · right; right; right
        rw [hset, if_neg hf2]
    · right; right; left
      have hset : m.set sha prompt img v now =
          (Except.ok Unit.unit,
           { m with store := insertKey (generateKey sha prompt img)
                              (newCacheEntry sha img v m.config.ttl now)
                              m.store }) := by
        unfold CacheManager.set
        rw [if_neg hen, if_neg hfull]
      rw [hset]

theorem get_store_cases (sha : String → String) (m : CacheManager)
    (prompt img : String) (now : Int) :
    (m.get sha prompt img now).2.store = m.store ∨
    (m.get sha prompt img now).2.store = eraseKey (generateKey sha prompt img) m.store ∨
    (∃ entry, lookupKey (generateKey sha prompt img) m.store = some entry ∧
      (m.get sha prompt img now).2.store = insertKey (generateKey sha prompt img)
        { entry with lastAccess := now, accessCount := entry.accessCount + 1 } m.store) := by
  by_cases hen : m.config.enabled = false
  · left
    simp [CacheManager.get, hen]
  · rcases hl : lookupKey (generateKey sha prompt img) m.store with _ | entry
    · left
      simp [CacheManager.get, hen, hl]
    · by_cases hexp : entry.expiresAt < now
      · right; left
        simp [CacheManager.get, hen, hl, hexp]
      · by_cases hmis : img ≠ "" ∧ entry.imageHash ≠ sha img
        · left
          simp [CacheManager.get, hen, hl, hexp, hmis]
        · right; right
          exact ⟨entry, rfl, by simp [CacheManager.get, hen, hl, hexp, hmis]⟩

theorem newEntry_invariant (sha : String → String) (hLen : ∀ s, (sha s).length = 64)
    (prompt img value : String) (ttl now : Int) :
    ∀ prm img', img' ≠ "" → generateKey sha prompt img = generateKey sha prm img' →
      (newCacheEntry sha img value ttl now).imageHash = sha img' := by
  intro prm img' himg' hkey
  show sha img = sha img'
  unfold generateKey at hkey
  by_cases himg : img = ""
  · rw [if_pos himg, if_neg himg'] at hkey
    exact absurd hkey (text_key_ne_multimodal_key _ _ _)
  · rw [if_neg himg, if_neg himg'] at hkey
    exact (multimodal_key_inj (by rw [hLen, hLen]) hkey).2

theorem inv_sub {sha : String → String} {l l' : List (String × cacheEntry)}
    (hinv : StoreImageHashInv sha l) (hsub : ∀ p ∈ l', p ∈ l) :
    StoreImageHashInv sha l' :=
  fun p hp => hinv p (hsub p hp)

theorem inv_insert {sha : String → String} {l : List (String × cacheEntry)}
    {k0 : String} {v0 : cacheEntry} (hinv : StoreImageHashInv sha l)
    (hnew : ∀ prm img, img ≠ "" → k0 = generateKey sha prm img → v0.imageHash = sha img) :
    StoreImageHashInv sha (insertKey k0 v0 l) := by
  intro p hp prm img himg hkey
  rcases mem_insertKey hp with h | h
  · subst h
    exact hnew prm img himg hkey
  · exact hinv p h prm img himg hkey

theorem reach_inv (sha : String → String) (hLen : ∀ s, (sha s).length = 64)
    (m : CacheManager) (hr : Reach sha m) : StoreImageHashInv sha m.store := by
  induction hr with
  | init cfg => intro p hp; simp at hp
  | set m0 prompt img v now _ ih =>
    rcases set_store_cases sha m0 prompt img v now with h | h | h | h
    · rw [h]; exact ih
    · rw [h]; exact inv_sub ih (escalatedBase_store_sub m0 now)
    · rw [h]
      exact inv_insert ih (newEntry_invariant sha hLen prompt img v m0.config.ttl now)
    · rw [h]
      exact inv_insert (inv_sub ih (escalatedBase_store_sub m0 now))
        (newEntry_invariant sha hLen prompt img v m0.config.ttl now)
  | get m0 prompt img now _ ih =>
    rcases get_store_cases sha m0 prompt img now with h | h | ⟨entry, hl, h⟩
    · rw [h]; exact ih
    · rw [h]; exact inv_sub ih fun p hp => mem_eraseKey hp
    · rw [h]
      apply inv_insert ih
      intro prm img' himg' hkey
      show entry.imageHash = sha img'
      exact ih _ (lookupKey_mem hl) prm img' himg' hkey

theorem get_no_imageChanged {sha : String → String} {m : CacheManager}
    (hinv : StoreImageHashInv sha m.store) (prompt img : String) (now : Int) :
    (m.get sha prompt img now).1 ≠ Except.error CacheErr.imageChanged := by
  by_cases hen : m.config.enabled = false
  · simp [CacheManager.get, hen]
  · rcases hl : lookupKey (generateKey sha prompt img) m.store with _ | entry
    · simp [CacheManager.get, hen, hl]
    · by_cases hexp : entry.expiresAt < now
      · simp [CacheManager.get, hen, hl, hexp]
      · have hcond : ¬ (img ≠ "" ∧ entry.imageHash ≠ sha img) := by
          rintro ⟨himg, hne⟩
          exact hne (hinv _ (lookupKey_mem hl) prompt img himg rfl)
        simp [CacheManager.get, hen, hl, hexp, hcond]

/-- C10: in every cache state reachable through `Set` and `Get` (with the
digest's fixed 64-character output standing in for "absent hash
collisions"), every stored entry's `imageHash` equals the image-hash
component of its own key; consequently the auxiliary-mismatch branch of
`Get` is unreachable — no reachable `Get` returns the "image changed"
error — and a changed auxiliary payload surfaces as an ordinary
key-absent miss counted in the miss statistic. -/
theorem cache_imageHash_key_consistency (sha : String → String)
    (hLen : ∀ s, (sha s).length = 64) (m : CacheManager) (hr : Reach sha m) :
    StoreImageHashInv sha m.store ∧
    (∀ prompt img now, (m.get sha prompt img now).1 ≠ Except.error CacheErr.imageChanged) ∧
    (∀ prompt img now, m.config.enabled = true →
      lookupKey (generateKey sha prompt img) m.store = none →
      (m.get sha prompt img now).1 = Except.error CacheErr.cacheDisabled ∧
      (m.get sha prompt img now).2.stats.misses = m.stats.misses + 1) := by
  have hinv := reach_inv sha hLen m hr
  refine ⟨hinv, fun prompt img now => get_no_imageChanged hinv prompt img now, ?_⟩
  intro prompt img now hen hl
  constructor <;> simp [CacheManager.get, hen, hl]

theorem cache_imageHash_key_consistency_witness :
    (StoreImageHashInv sha64
      (({ config := cacheCfg2, store := [], stats := ⟨0, 0, 0, 0⟩ } :
        CacheManager).set sha64 "p" "i" "v" 0).2.store ∧
    (∀ prompt img now,
      ((({ config := cacheCfg2, store := [], stats := ⟨0, 0, 0, 0⟩ } :
        CacheManager).set sha64 "p" "i" "v" 0).2.get sha64 prompt img now).1 ≠
        Except.error CacheErr.imageChanged) ∧
    (∀ prompt img now,
      (({ config := cacheCfg2, store := [], stats := ⟨0, 0, 0, 0⟩ } :
        CacheManager).set sha64 "p" "i" "v" 0).2.config.enabled = true →
      lookupKey (generateKey sha64 prompt img)
        (({ config := cacheCfg2, store := [], stats := ⟨0, 0, 0, 0⟩ } :
          CacheManager).set sha64 "p" "i" "v" 0).2.store = none →
      ((({ config := cacheCfg2, store := [], stats := ⟨0, 0, 0, 0⟩ } :
        CacheManager).set sha64 "p" "i" "v" 0).2.get sha64 prompt img now).1 =
        Except.error CacheErr.cacheDisabled ∧
      ((({ config := cacheCfg2, store := [], stats := ⟨0, 0, 0, 0⟩ } :
        CacheManager).set sha64 "p" "i" "v" 0).2.get sha64 prompt img now).2.stats.misses =
        (({ config := cacheCfg2, store := [], stats := ⟨0, 0, 0, 0⟩ } :
          CacheManager).set sha64 "p" "i" "v" 0).2.stats.misses + 1)) :=
  cache_imageHash_key_consistency sha64 sha64_length _
    (Reach.set { config := cacheCfg2, store := [], stats := ⟨0, 0, 0, 0⟩ }
      "p" "i" "v" 0 (Reach.init cacheCfg2))

/-! ### Rate limiter lemmas and claims -/

theorem allow_inv_step (rl : RateLimiter) (t : ℚ)
    (hinv : 0 ≤ rl.tokens ∧ rl.tokens ≤ rl.capacity) :
    (0 ≤ (rl.allow t).2.tokens ∧ (rl.allow t).2.tokens ≤ (rl.allow t).2.capacity) ∧
    (rl.allow t).2.capacity = rl.capacity := by
  have hcap : 0 ≤ rl.capacity := le_trans hinv.1 hinv.2
  obtain ⟨h0, h1⟩ := hinv
  simp only [RateLimiter.allow]
  split <;> split <;> simp_all <;> omega

theorem allowSeq_inv (rl : RateLimiter) (ts : List ℚ)
    (hinv : 0 ≤ rl.tokens ∧ rl.tokens ≤ rl.capacity) :
    0 ≤ (allowSeq rl ts).tokens ∧ (allowSeq rl ts).tokens ≤ (allowSeq rl ts).capacity := by
  induction ts generalizing rl with
  | nil => exact hinv
  | cons t rest ih =>
    have hstep := allow_inv_step rl t hinv
    exact ih (rl.allow t).2 hstep.1

/-- C5: over any sequence of `Allow` calls the token count stays within
`0 ≤ tokens ≤ capacity`; and a single `Allow` at time `now` (no earlier
than the recorded `lastTime`, with a nonnegative rate) sets `lastTime` to
`now`, refills the bucket to exactly
`min capacity (tokens + ⌊elapsed * rate⌋)`, returns true exactly when that
refilled count is positive, and in that case consumes exactly one
token. -/
theorem rate_limiter_invariant_and_refill (rl : RateLimiter) (ts : List ℚ) (now : ℚ)
    (hinv : 0 ≤ rl.tokens ∧ rl.tokens ≤ rl.capacity)
    (hmono : rl.lastTime ≤ now) (hrate : 0 ≤ rl.rate) :
    (0 ≤ (allowSeq rl ts).tokens ∧ (allowSeq rl ts).tokens ≤ (allowSeq rl ts).capacity) ∧
    (rl.allow now).2.lastTime = now ∧
    ((rl.allow now).1 = true ↔
      0 < min rl.capacity (rl.tokens + ⌊(now - rl.lastTime) * rl.rate⌋)) ∧
    (rl.allow now).2.tokens =
      (if (rl.allow now).1 = true
       then min rl.capacity (rl.tokens + ⌊(now - rl.lastTime) * rl.rate⌋) - 1
       else min rl.capacity (rl.tokens + ⌊(now - rl.lastTime) * rl.rate⌋)) := by
  refine ⟨allowSeq_inv rl ts hinv, ?_⟩
  have helapsed : (0 : ℚ) ≤ (now - rl.lastTime) * rl.rate :=
    mul_nonneg (by linarith) hrate
  have hgo : goTrunc ((now - rl.lastTime) * rl.rate) = ⌊(now - rl.lastTime) * rl.rate⌋ := by
    unfold goTrunc
    rw [if_pos helapsed]
  have hfl : 0 ≤ ⌊(now - rl.lastTime) * rl.rate⌋ := Int.floor_nonneg.mpr helapsed
  simp only [RateLimiter.allow, hgo]
  by_cases hpos : ⌊(now - rl.lastTime) * rl.rate⌋ > 0
  · rw [if_pos hpos]
    split <;> rename_i hc <;> simp_all
  · rw [if_neg hpos]
    have h0 : ⌊(now - rl.lastTime) * rl.rate⌋ = 0 := le_antisymm (not_lt.mp hpos) hfl
    rw [h0]
    have hmin : min rl.capacity (rl.tokens + 0) = rl.tokens := by
      rw [add_zero]
      exact min_eq_right hinv.2
    rw [hmin]
    split <;> rename_i hc <;> simp_all

theorem rate_limiter_invariant_and_refill_witness :
    ((0 ≤ (allowSeq (NewRateLimiter 5 1 0) [0, 0]).tokens ∧
      (allowSeq (NewRateLimiter 5 1 0) [0, 0]).tokens ≤
        (allowSeq (NewRateLimiter 5 1 0) [0, 0]).capacity) ∧
    ((NewRateLimiter 5 1 0).allow 2).2.lastTime = 2 ∧
    (((NewRateLimiter 5 1 0).allow 2).1 = true ↔
      0 < min (NewRateLimiter 5 1 0).capacity
        ((NewRateLimiter 5 1 0).tokens +
          ⌊(2 - (NewRateLimiter 5 1 0).lastTime) * (NewRateLimiter 5 1 0).rate⌋)) ∧
    ((NewRateLimiter 5 1 0).allow 2).2.tokens =
      (if ((NewRateLimiter 5 1 0).allow 2).1 = true
       then min (NewRateLimiter 5 1 0).capacity
         ((NewRateLimiter 5 1 0).tokens +
           ⌊(2 - (NewRateLimiter 5 1 0).lastTime) * (NewRateLimiter 5 1 0).rate⌋) - 1
       else min (NewRateLimiter 5 1 0).capacity
         ((NewRateLimiter 5 1 0).tokens +
           ⌊(2 - (NewRateLimiter 5 1 0).lastTime) * (NewRateLimiter 5 1 0).rate⌋))) :=
  rate_limiter_invariant_and_refill (NewRateLimiter 5 1 0) [0, 0] 2
    (by norm_num [NewRateLimiter]) (by norm_num [NewRateLimiter])
    (by norm_num [NewRateLimiter])

/-- A limiter state `n` tokens into the burst of the `requests = 5,
window = 1s` configuration, all calls at instant 0. -/
def rlAt (n : Int) : RateLimiter :=
  { tokens := n, capacity := 5, rate := 5, lastTime := 0 }

theorem rlAt_allow_pos (n : Int) (hn : 0 < n) :
    (rlAt n).allow 0 = (true, rlAt (n - 1)) := by
  simp [RateLimiter.allow, rlAt, goTrunc, hn]

theorem rlAt_allow_zero : (rlAt 0).allow 0 = (false, rlAt 0) := by
  simp [RateLimiter.allow, rlAt, goTrunc]

theorem allowSeq_snoc (rl : RateLimiter) (ts : List ℚ) (t : ℚ) :
    allowSeq rl (ts ++ [t]) = ((allowSeq rl ts).allow t).2 := by
  simp [allowSeq, List.foldl_append]

/-- C6: with `requests = 5, window = 1s`, five `Allow` calls at one
instant all return true, the sixth returns false, and after at least one
second with no further calls the next `Allow` returns true again. -/
theorem rate_limiter_burst_of_five (t : ℚ) (ht : 1 ≤ t) :
    ((allowSeq (NewRateLimiter 5 1 0) []).allow 0).1 = true ∧
    ((allowSeq (NewRateLimiter 5 1 0) [0]).allow 0).1 = true ∧
    ((allowSeq (NewRateLimiter 5 1 0) [0, 0]).allow 0).1 = true ∧
    ((allowSeq (NewRateLimiter 5 1 0) [0, 0, 0]).allow 0).1 = true ∧
    ((allowSeq (NewRateLimiter 5 1 0) [0, 0, 0, 0]).allow 0).1 = true ∧
    ((allowSeq (NewRateLimiter 5 1 0) [0, 0, 0, 0, 0]).allow 0).1 = false ∧
    ((allowSeq (NewRateLimiter 5 1 0) [0, 0, 0, 0, 0, 0]).allow t).1 = true := by
  have h0 : NewRateLimiter 5 1 0 = rlAt 5 := by
    norm_num [NewRateLimiter, rlAt]
  have s0 : allowSeq (NewRateLimiter 5 1 0) [] = rlAt 5 := by
    simp [allowSeq, h0]
  have s1 : allowSeq (NewRateLimiter 5 1 0) [0] = rlAt 4 := by
    rw [show ([0] : List ℚ) = [] ++ [0] from rfl, allowSeq_snoc, s0,
      rlAt_allow_pos 5 (by norm_num)]
    norm_num
  have s2 : allowSeq (NewRateLimiter 5 1 0) [0, 0] = rlAt 3 := by
    rw [show ([0, 0] : List ℚ) = [0] ++ [0] from rfl, allowSeq_snoc, s1,
      rlAt_allow_pos 4 (by norm_num)]
    norm_num
  have s3 : allowSeq (NewRateLimiter 5 1 0) [0, 0, 0] = rlAt 2 := by
    rw [show ([0, 0, 0] : List ℚ) = [0, 0] ++ [0] from rfl, allowSeq_snoc, s2,
      rlAt_allow_pos 3 (by norm_num)]
    norm_num
  have s4 : allowSeq (NewRateLimiter 5 1 0) [0, 0, 0, 0] = rlAt 1 := by
    rw [show ([0, 0, 0, 0] : List ℚ) = [0, 0, 0] ++ [0] from rfl, allowSeq_snoc, s3,
      rlAt_allow_pos 2 (by norm_num)]
    norm_num
  have s5 : allowSeq (NewRateLimiter 5 1 0) [0, 0, 0, 0, 0] = rlAt 0 := by
    rw [show ([0, 0, 0, 0, 0] : List ℚ) = [0, 0, 0, 0] ++ [0] from rfl, allowSeq_snoc, s4,
      rlAt_allow_pos 1 (by norm_num)]
    norm_num
  have s6 : allowSeq (NewRateLimiter 5 1 0) [0, 0, 0, 0, 0, 0] = rlAt 0 := by
    rw [show ([0, 0, 0, 0, 0, 0] : List ℚ) = [0, 0, 0, 0, 0] ++ [0] from rfl,
      allowSeq_snoc, s5, rlAt_allow_zero]
  have hrefill : ((rlAt 0).allow t).1 = true := by
    have helapsed : (0 : ℚ) ≤ (t - (0 : ℚ)) * (5 : ℚ) := by linarith
    have hgo : goTrunc ((t - (0 : ℚ)) * (5 : ℚ)) = ⌊(t - (0 : ℚ)) * (5 : ℚ)⌋ := by
      unfold goTrunc
      rw [if_pos helapsed]
    have h5 : (5 : ℤ) ≤ ⌊(t - (0 : ℚ)) * (5 : ℚ)⌋ := by
      apply Int.le_floor.mpr
      push_cast
      linarith
    have hpos : goTrunc ((t - (0 : ℚ)) * (5 : ℚ)) > 0 := by
      rw [hgo]; omega
    have htok : (0 : ℤ) < min 5 (0 + goTrunc ((t - (0 : ℚ)) * (5 : ℚ))) := by
      rw [hgo]
      omega
    simp only [RateLimiter.allow, rlAt]
    rw [if_pos hpos, if_pos htok]
  rw [s0, s1, s2, s3, s4, s5, s6]
  refine ⟨?_, ?_, ?_, ?_, ?_, ?_, hrefill⟩
  · rw [rlAt_allow_pos 5 (by norm_num)]
  · rw [rlAt_allow_pos 4 (by norm_num)]
  · rw [rlAt_allow_pos 3 (by norm_num)]
  · rw [rlAt_allow_pos 2 (by norm_num)]
  · rw [rlAt_allow_pos 1 (by norm_num)]
  · rw [rlAt_allow_zero]

theorem rate_limiter_burst_of_five_witness :
    (((allowSeq (NewRateLimiter 5 1 0) []).allow 0).1 = true ∧
    ((allowSeq (NewRateLimiter 5 1 0) [0]).allow 0).1 = true ∧
    ((allowSeq (NewRateLimiter 5 1 0) [0, 0]).allow 0).1 = true ∧
    ((allowSeq (NewRateLimiter 5 1 0) [0, 0, 0]).allow 0).1 = true ∧
    ((allowSeq (NewRateLimiter 5 1 0) [0, 0, 0, 0]).allow 0).1 = true ∧
    ((allowSeq (NewRateLimiter 5 1 0) [0, 0, 0, 0, 0]).allow 0).1 = false ∧
    ((allowSeq (NewRateLimiter 5 1 0) [0, 0, 0, 0, 0, 0]).allow 1).1 = true) :=
  rate_limiter_burst_of_five 1 (by norm_num)

/-! ### Deduplication claim -/

/-- C7: a first dedup check of a fresh `(method, path, bodyHash)`
fingerprint records its timestamp and reports not-duplicate; a second
check within the window reports duplicate without updating the stored
timestamp; a third check after the window has elapsed (measured from the
first, still-recorded timestamp) reports not-duplicate again and
re-records. -/
theorem dedup_window_behavior (m0 : List (String × Int))
    (method path bodyHash : String) (window t1 t2 t3 : Int)
    (hfresh : lookupKey (dedupFingerprint method path bodyHash) m0 = none)
    (h12 : t2 - t1 ≤ window) (h13 : t3 - t1 > window) :
    (dedupCheck m0 method path bodyHash t1 window).1 = false ∧
    lookupKey (dedupFingerprint method path bodyHash)
      (dedupCheck m0 method path bodyHash t1 window).2 = some t1 ∧
    (dedupCheck (dedupCheck m0 method path bodyHash t1 window).2
      method path bodyHash t2 window).1 = true ∧
    (dedupCheck (dedupCheck m0 method path bodyHash t1 window).2
      method path bodyHash t2 window).2 =
      (dedupCheck m0 method path bodyHash t1 window).2 ∧
    (dedupCheck (dedupCheck (dedupCheck m0 method path bodyHash t1 window).2
      method path bodyHash t2 window).2 method path bodyHash t3 window).1 = false ∧
    lookupKey (dedupFingerprint method path bodyHash)
      (dedupCheck (dedupCheck (dedupCheck m0 method path bodyHash t1 window).2
        method path bodyHash t2 window).2 method path bodyHash t3 window).2 =
      some t3 := by
  have h1 : dedupCheck m0 method path bodyHash t1 window =
      (false, insertKey (dedupFingerprint method path bodyHash) t1 m0) := by
    simp [dedupCheck, hfresh]
  have hlk : lookupKey (dedupFingerprint method path bodyHash)
      (insertKey (dedupFingerprint method path bodyHash) t1 m0) = some t1 :=
    lookupKey_insertKey_self _ _ _
  have h2 : dedupCheck (insertKey (dedupFingerprint method path bodyHash) t1 m0)
      method path bodyHash t2 window =
      (true, insertKey (dedupFingerprint method path bodyHash) t1 m0) := by
    simp [dedupCheck, hlk, h12]
  have h3 : dedupCheck (insertKey (dedupFingerprint method path bodyHash) t1 m0)
      method path bodyHash t3 window =
      (false, insertKey (dedupFingerprint method path bodyHash) t3
        (insertKey (dedupFingerprint method path bodyHash) t1 m0)) := by
    simp [dedupCheck, hlk, not_le.mpr h13]
  rw [h1]
  simp only
  rw [h2]
  simp only
  rw [h3]
  refine ⟨?_, ?_, ?_, ?_, ?_, ?_⟩
  · simp
  · exact hlk
  · simp
  · simp
  · simp
  · exact lookupKey_insertKey_self _ _ _

theorem dedup_window_behavior_witness :
    ((dedupCheck [] "POST" "/api" "bh" 0 10).1 = false ∧
    lookupKey (dedupFingerprint "POST" "/api" "bh")
      (dedupCheck [] "POST" "/api" "bh" 0 10).2 = some 0 ∧
    (dedupCheck (dedupCheck [] "POST" "/api" "bh" 0 10).2 "POST" "/api" "bh" 5 10).1 = true ∧
    (dedupCheck (dedupCheck [] "POST" "/api" "bh" 0 10).2 "POST" "/api" "bh" 5 10).2 =
      (dedupCheck [] "POST" "/api" "bh" 0 10).2 ∧
    (dedupCheck (dedupCheck (dedupCheck [] "POST" "/api" "bh" 0 10).2
      "POST" "/api" "bh" 5 10).2 "POST" "/api" "bh" 11 10).1 = false ∧
    lookupKey (dedupFingerprint "POST" "/api" "bh")
      (dedupCheck (dedupCheck (dedupCheck [] "POST" "/api" "bh" 0 10).2
        "POST" "/api" "bh" 5 10).2 "POST" "/api" "bh" 11 10).2 = some 11) :=
  dedup_window_behavior [] "POST" "/api" "bh" 10 0 5 11
    (by decide) (by decide) (by decide)

/-! ### Work queue claims -/

theorem enqueueList_ok {α : Type} (m : QueueManager α) (sel : Bool) (xs : List α)
    (hcl : m.closed = false)
    (hlen : (m.items.length : Int) + xs.length ≤ m.maxSize) :
    enqueueList m sel xs =
      (List.replicate xs.length EnqueueResult.enqueued, { m with items := m.items ++ xs }) := by
  induction xs generalizing m with
  | nil => simp [enqueueList]
  | cons x rest ih =>
    have hlen0 : (m.items.length : Int) + rest.length + 1 ≤ m.maxSize := by
      have h := hlen
      simp only [List.length_cons] at h
      push_cast at h
      omega
    have hroom : ¬ (m.items.length : Int) ≥ m.maxSize := by omega
    have henq : m.enqueue x sel = (EnqueueResult.enqueued, { m with items := m.items ++ [x] }) := by
      simp [QueueManager.enqueue, hroom, hcl]
    have hlen' : (({ m with items := m.items ++ [x] } : QueueManager α).items.length : Int) +
        rest.length ≤ ({ m with items := m.items ++ [x] } : QueueManager α).maxSize := by
      simp only [List.length_append, List.length_singleton]
      push_cast
      omega
    simp only [enqueueList, henq]
    rw [ih ({ m with items := m.items ++ [x] } : QueueManager α) hcl hlen']
    simp [List.append_assoc, List.replicate_succ]

/-- C8: with the queue open, the first `maxSize` enqueues all succeed and
fill the buffer in order; the `(maxSize+1)`-th call fails with `QueueFull`
leaving the queue unchanged; after one item is drained, an enqueue
succeeds again and appends. -/
theorem queue_fill_and_drain {α : Type} (q : QueueManager α) (xs : List α) (y : α)
    (sel : Bool) (hcl : q.closed = false) (hempty : q.items = [])
    (hlen : (xs.length : Int) = q.maxSize) (hne : xs ≠ []) :
    (∀ o ∈ (enqueueList q sel xs).1, o = EnqueueResult.enqueued) ∧
    (enqueueList q sel xs).2.items = xs ∧
    ((enqueueList q sel xs).2.enqueue y sel).1 = EnqueueResult.queueFull ∧
    ((enqueueList q sel xs).2.enqueue y sel).2 = (enqueueList q sel xs).2 ∧
    (((enqueueList q sel xs).2.drain.2).enqueue y sel).1 = EnqueueResult.enqueued ∧
    (((enqueueList q sel xs).2.drain.2).enqueue y sel).2.items = xs.tail ++ [y] := by
  have hall : enqueueList q sel xs =
      (List.replicate xs.length EnqueueResult.enqueued, { q with items := q.items ++ xs }) := by
    apply enqueueList_ok q sel xs hcl
    rw [hempty, hlen]
    simp
  rw [hall, hempty]
  simp only [List.nil_append]
  obtain ⟨x, tl, rfl⟩ := List.exists_cons_of_ne_nil hne
  have hfull : ((x :: tl).length : Int) ≥ q.maxSize := le_of_eq hlen.symm
  have hfullEnq : (({ q with items := x :: tl } : QueueManager α).enqueue y sel) =
      (EnqueueResult.queueFull, { q with items := x :: tl }) := by
    simp only [QueueManager.enqueue]
    rw [if_pos hfull]
  have hdrain : ({ q with items := x :: tl } : QueueManager α).drain =
      (some x, { q with items := tl }) := rfl
  have hroom : ¬ ((tl.length : Int) ≥ q.maxSize) := by
    simp only [List.length_cons] at hlen
    push_cast at hlen ⊢
    omega
  have henq2 : ({ q with items := tl } : QueueManager α).enqueue y sel =
      (EnqueueResult.enqueued, { q with items := tl ++ [y] }) := by
    simp [QueueManager.enqueue, hroom, hcl]
  refine ⟨?_, ?_, ?_, ?_, ?_, ?_⟩
  · intro o ho
    exact List.eq_of_mem_replicate ho
  · simp
  · rw [hfullEnq]
  · rw [hfullEnq]
  · rw [hdrain]
    simp only
    rw [henq2]
  · rw [hdrain]
    simp only
    rw [henq2]
    simp

theorem queue_fill_and_drain_witness :
    ((∀ o ∈ (enqueueList ({ maxSize := 2, items := [], closed := false } :
        QueueManager Int) false [7, 8]).1, o = EnqueueResult.enqueued) ∧
    (enqueueList ({ maxSize := 2, items := [], closed := false } :
      QueueManager Int) false [7, 8]).2.items = [7, 8] ∧
    ((enqueueList ({ maxSize := 2, items := [], closed := false } :
      QueueManager Int) false [7, 8]).2.enqueue 9 false).1 = EnqueueResult.queueFull ∧
    ((enqueueList ({ maxSize := 2, items := [], closed := false } :
      QueueManager Int) false [7, 8]).2.enqueue 9 false).2 =
      (enqueueList ({ maxSize := 2, items := [], closed := false } :
        QueueManager Int) false [7, 8]).2 ∧
    (((enqueueList ({ maxSize := 2, items := [], closed := false } :
      QueueManager Int) false [7, 8]).2.drain.2).enqueue 9 false).1 =
      EnqueueResult.enqueued ∧
    (((enqueueList ({ maxSize := 2, items := [], closed := false } :
      QueueManager Int) false [7, 8]).2.drain.2).enqueue 9 false).2.items =
      ([7, 8] : List Int).tail ++ [9]) :=
  queue_fill_and_drain ({ maxSize := 2, items := [], closed := false } : QueueManager Int)
    [7, 8] 9 false (by decide) (by decide) (by decide) (by decide)

/-- C9 (code bug): after `Close()` — which closes both the `done` channel
and the `queue` channel — an `Enqueue` with buffer space free reaches a
`select` whose queue-send case is a send on a closed channel: when Go
picks that case the process aborts with a runtime panic instead of
returning the "queue manager is closed" error, and when occupancy already
meets capacity the call returns `QueueFull` rather than a "closed"
failure; so not every post-`Close` `Enqueue` returns the explicit
"closed" failure. -/
theorem enqueue_after_close_can_panic :
    ((({ maxSize := 1, items := [], closed := false } :
        QueueManager Int).close).enqueue 0 true).1 = EnqueueResult.panicked ∧
    ((({ maxSize := 1, items := [], closed := false } :
        QueueManager Int).close).enqueue 0 false).1 = EnqueueResult.closedErr ∧
    ((({ maxSize := 1, items := [5], closed := false } :
        QueueManager Int).close).enqueue 0 false).1 = EnqueueResult.queueFull := by
  refine ⟨by decide, by decide, by decide⟩

end Recipe
